import Mathlib

/-!
Shallow embedding of the Jarvis voice-assistant core
(`src/core/chatAI.py`, `src/core/wakeword_core.py`).

Audio frames are modelled as lists of bytes (`List Nat`); machine time is
modelled by natural-number timestamps.  The voice-activity segmentation loop
of `ChatAI._record_speech_segment` is embedded as an explicit step function
over its loop state, and the dialogue loop of `ChatAI.start_dialogue` as a
step function over per-iteration events (timestamps and the result of one
listen attempt).
-/

namespace Jarvis

/-- An audio frame: one fixed-size block of raw PCM bytes
(`stream.read(self.block_size)` yields `block_size` int16 samples,
i.e. `2 * block_size` bytes). -/
structure Frame where
  data : List Nat
deriving DecidableEq

/-- `self.frame_duration_ms = 30` (chatAI.py line 27). -/
def frame_duration_ms : Nat := 30

/-- `self.padding_duration_ms = 300` (chatAI.py line 32). -/
def padding_duration_ms : Nat := 300

/-- `num_padding_frames = int(self.padding_duration_ms / self.frame_duration_ms)`
(chatAI.py line 132); evaluates to 10. -/
def num_padding_frames : Nat := padding_duration_ms / frame_duration_ms

/-- `max_silent_frames = int(800 / self.frame_duration_ms)` (chatAI.py
line 140); evaluates to 26. -/
def max_silent_frames : Nat := 800 / frame_duration_ms

/-- `max_frames = int(15000 / self.frame_duration_ms)` (chatAI.py line 151);
evaluates to 500. -/
def max_frames : Nat := 15000 / frame_duration_ms

/-- The literal `10` in `if len(voiced_frames) < 10` (chatAI.py line 196). -/
def min_frames_to_keep : Nat := 10

/-- `self.timeout_seconds = 20` (chatAI.py line 21). -/
def timeout_seconds : Nat := 20

/-- `self.max_invalid_inputs = 3` (chatAI.py line 23). -/
def max_invalid_inputs : Nat := 3

/-- `self.block_size = int(self.sample_rate * self.frame_duration_ms / 1000)`
(chatAI.py line 38); evaluates to 480 samples, i.e. 960 bytes per frame. -/
def block_size : Nat := 16000 * frame_duration_ms / 1000

/-- Bytes per frame: `block_size` int16 samples, 2 bytes each. -/
def bytes_per_frame : Nat := 2 * block_size

/-- `ring_buffer.append((data, is_speech))` on a `collections.deque` with
`maxlen=num_padding_frames` (chatAI.py lines 133, 164): append on the right,
evicting from the left once the capacity is exceeded. -/
def ring_append (rb : List (Frame × Bool)) (x : Frame × Bool) :
    List (Frame × Bool) :=
  let rb' := rb ++ [x]
  if num_padding_frames < rb'.length then
    rb'.drop (rb'.length - num_padding_frames)
  else rb'

/-- Which of the two `break`s ended the recording loop:
`[End of speech]` (chatAI.py line 187) or `[Max duration reached]`
(chatAI.py line 192). -/
inductive EndKind
  | Silence
  | MaxDuration
deriving DecidableEq

/-- The mutable state of the `while True` loop in
`ChatAI._record_speech_segment` (chatAI.py lines 132-152). -/
structure RecState where
  ring_buffer : List (Frame × Bool)
  triggered : Bool
  voiced_frames : List Frame
  silent_frame_count : Nat
  frame_count : Nat
deriving DecidableEq

/-- Initial loop state (chatAI.py lines 133-152). -/
def initRecState : RecState := ⟨[], false, [], 0, 0⟩

/-- One iteration of the recording loop body (chatAI.py lines 154-193) on an
already-classified frame `x = (data, is_speech)`.  `Sum.inl` is "loop
continues", `Sum.inr` is "loop broke out" with the end kind.

The trigger test `num_voiced > 0.9 * ring_buffer.maxlen` (line 168) compares
an integer with the float `0.9 * 10 = 9.0`, which is exact in double
precision, so it is embedded as the exact rational comparison
`10 * num_voiced > 9 * num_padding_frames`. -/
def recStep (s : RecState) (x : Frame × Bool) :
    RecState ⊕ (RecState × EndKind) :=
  if s.triggered then
    let voiced := s.voiced_frames ++ [x.1]
    let fc := s.frame_count + 1
    let sc := if x.2 then 0 else s.silent_frame_count + 1
    let s' : RecState := ⟨s.ring_buffer, true, voiced, sc, fc⟩
    if max_silent_frames < sc then Sum.inr (s', EndKind.Silence)
    else if max_frames < fc then Sum.inr (s', EndKind.MaxDuration)
    else Sum.inl s'
  else
    let rb := ring_append s.ring_buffer x
    if 9 * num_padding_frames < 10 * ((rb.filter fun p => p.2).length) then
      Sum.inl ⟨[], true, s.voiced_frames ++ rb.map Prod.fst,
               s.silent_frame_count, s.frame_count⟩
    else
      Sum.inl ⟨rb, false, s.voiced_frames, s.silent_frame_count, s.frame_count⟩

/-- Run the recording loop over a finite prefix of the classified frame
stream.  `Sum.inl s` means the loop is still running (it consumed the whole
prefix without breaking) and its state is `s`; `Sum.inr (s, e)` means the
loop broke out with state `s` and end kind `e`. -/
def recRun : RecState → List (Frame × Bool) → RecState ⊕ (RecState × EndKind)
  | s, [] => Sum.inl s
  | s, x :: xs =>
    match recStep s x with
    | Sum.inl s' => recRun s' xs
    | Sum.inr r => Sum.inr r

/-- The final lines of `_record_speech_segment` (chatAI.py lines 195-199):
fewer than `min_frames_to_keep` accumulated frames yield the empty byte
string, otherwise all frames are concatenated. -/
def finalize_segment (voiced_frames : List Frame) : List Nat :=
  if voiced_frames.length < min_frames_to_keep then []
  else (voiced_frames.map Frame.data).flatten

/-- `ChatAI._record_speech_segment` as a whole, on a finite prefix of the
classified frame stream: `none` when the loop has not yet returned after
consuming the prefix, otherwise the returned byte string together with the
end kind. -/
def record_speech_segment (input : List (Frame × Bool)) :
    Option (List Nat × EndKind) :=
  match recRun initRecState input with
  | Sum.inl _ => none
  | Sum.inr (s, e) => some (finalize_segment s.voiced_frames, e)

/-- The value of the loop's `silent_frame_count` after processing the
classified frames `xs` from an initial counter `c` (chatAI.py lines
180-183): a speech frame resets it to zero, a non-speech frame increments
it.  `silence_run c (xs.take (k + 1)) ≤ max_silent_frames` says the
silence-end condition does not fire on the `(k+1)`-th processed frame. -/
def silence_run (c : Nat) : List (Frame × Bool) → Nat
  | [] => c
  | x :: xs => silence_run (if x.2 then 0 else c + 1) xs

/-- A byte-count-only view of frames used by several concrete runs below:
the frame with no payload bytes. -/
def f0 : Frame := ⟨[]⟩

/-- A frame with a one-byte payload (used where only non-emptiness of the
captured audio matters). -/
def f1 : Frame := ⟨[0]⟩

/-- A full-size frame: `block_size = 480` int16 samples, 960 bytes. -/
def f960 : Frame := ⟨List.replicate bytes_per_frame 0⟩

/-- All frames of a list carry exactly one full block of PCM bytes. -/
def sized (l : List Frame) : Prop :=
  ∀ f ∈ l, f.data.length = bytes_per_frame

/-- Invariant of the recording loop, relating the accumulator length to the
loop counters (chatAI.py lines 132-193): before the trigger nothing is
accumulated and both counters are zero; after the trigger the accumulator
holds the `num_padding_frames` preroll frames plus one frame per counted
post-trigger frame, and the silence run never exceeds the number of
post-trigger frames. -/
def RecInv (bs : Nat) (s : RecState) : Prop :=
  (s.triggered = false →
    s.voiced_frames = [] ∧ s.frame_count = 0 ∧ s.silent_frame_count = 0 ∧
    s.ring_buffer.length ≤ num_padding_frames ∧
    ∀ p ∈ s.ring_buffer, p.1.data.length = bs) ∧
  (s.triggered = true →
    s.voiced_frames.length = num_padding_frames + s.frame_count ∧
    s.silent_frame_count ≤ s.frame_count ∧
    ∀ f ∈ s.voiced_frames, f.data.length = bs)

/-- Python-level exceptions that can cross `ChatAI` method boundaries:
`KeyboardInterrupt` (the only one `start_dialogue` catches, line 94) and
I/O errors such as those `wave.open`/`writeframes` raise in `_save_wav`. -/
inductive PyErr
  | keyboardInterrupt
  | ioError (code : Nat)
deriving DecidableEq

/-- `ChatAI._save_wav` (chatAI.py lines 220-229), modelled by the outcome of
its file I/O: `none` means the WAV file was written, `some code` means the
underlying I/O raised.  The method has no exception handler, so a failure
is raised to the caller. -/
def save_wav (outcome : Option Nat) : Except PyErr Unit :=
  match outcome with
  | some code => Except.error (PyErr.ioError code)
  | none => Except.ok ()

/-- The fixed text the mock ASR returns (chatAI.py line 218). -/
def mock_reply : List Char := String.toList "你好 Jarvis，这是一个测试对话。"

/-- `ChatAI._asr_engine` (chatAI.py lines 201-218): first persists the debug
WAV (an exception there propagates), then returns `""` for captures shorter
than 32000 bytes and the fixed mock reply otherwise. -/
def asr_engine (persist_fail : Option Nat) (audio_data : List Nat) :
    Except PyErr (List Char) :=
  match save_wav persist_fail with
  | Except.error e => Except.error e
  | Except.ok _ => Except.ok (if audio_data.length < 32000 then [] else mock_reply)

/-- The tail of `ChatAI._listen_and_transcribe` (chatAI.py lines 113-121)
applied to the byte string returned by `_record_speech_segment`: empty audio
short-circuits to the empty text, otherwise `_asr_engine` is called.  The
second component records whether the ASR engine was invoked. -/
def transcribe_step (persist_fail : Option Nat) (audio_data : List Nat) :
    Except PyErr (List Char) × Bool :=
  if audio_data.isEmpty then (Except.ok [], false)
  else (asr_engine persist_fail audio_data, true)

/-- `ChatAI._listen_and_transcribe` (chatAI.py lines 104-121) on a finite
prefix of the classified frame stream; `none` when the recording loop has
not yet returned. -/
def listen_and_transcribe (persist_fail : Option Nat)
    (input : List (Frame × Bool)) : Option (Except PyErr (List Char) × Bool) :=
  (record_speech_segment input).map fun r => transcribe_step persist_fail r.1

/-- Python's `needle in hay` on strings: contiguous-substring containment
(true at some position iff `needle` is a prefix of the corresponding
suffix of `hay`). -/
def is_substring (needle hay : List Char) : Bool :=
  match hay with
  | [] => needle.isEmpty
  | _ :: t => needle.isPrefixOf hay || is_substring needle t

/-- `self.exit_keywords` (chatAI.py line 19). -/
def exit_keywords : List (List Char) :=
  ["谢谢", "再见", "结束", "退下", "exit", "quit", "bye"].map String.toList

/-- `ChatAI._check_exit_intent` (chatAI.py lines 231-237): lowercase the
transcription, then return whether any configured keyword occurs in it
(Python's `in` on strings is contiguous-substring containment). -/
def check_exit_intent (text : List Char) : Bool :=
  let text_lower := text.map Char.toLower
  exit_keywords.any fun kw => is_substring kw text_lower

/-- The exit-intent check as the spec words it: some phrase of the
configured exit-keyword list occurs as a case-insensitive substring of the
transcription (both sides lowercased). -/
def exit_intent_spec (text : List Char) : Bool :=
  exit_keywords.any fun kw =>
    is_substring (kw.map Char.toLower) (text.map Char.toLower)

/-- `ChatAI._process_response` (chatAI.py lines 239-247); `clock` stands for
the `time.strftime('%H:%M')` result. -/
def process_response (clock : List Char) (text : List Char) : List Char :=
  if is_substring (String.toList "你好") text then
    String.toList "你好！很高兴为你服务。"
  else if is_substring (String.toList "几点") text
      || is_substring (String.toList "时间") text then
    String.toList "现在是 " ++ clock ++ String.toList "。"
  else
    String.toList "我听到了：" ++ text ++ String.toList "，但我还不知道怎么回答。"

/-- Role tag of a user turn (chatAI.py line 88). -/
def user_role : List Char := String.toList "user"

/-- Role tag of an assistant turn (chatAI.py line 89). -/
def ai_role : List Char := String.toList "ai"

/-- The mutable state of the `while True` loop of `ChatAI.start_dialogue`
(chatAI.py lines 48-50): conversation history, `last_input_time`, and the
consecutive invalid-input counter.  Timestamps are naturals (a monotone
clock). -/
structure DlgState where
  conversation_history : List (List Char × List Char)
  last_input_time : Nat
  invalid_input_count : Nat
deriving DecidableEq

/-- Why the dialogue loop ended (all four `break`s return the accumulated
history and put the controller back to sleep). -/
inductive DlgExit
  | Timeout
  | TooManyInvalid
  | ExitIntent
  | Interrupted
deriving DecidableEq

/-- The environment of one iteration of the dialogue loop: the clock value
read at the timeout check (line 55), the clock value read when an input is
accepted (line 73), the outcome of `_listen_and_transcribe` (text, or an
exception it raised), and the wall-clock string used by
`_process_response`. -/
structure DlgEvent where
  check_time : Nat
  valid_time : Nat
  listen_result : Except PyErr (List Char)
  clock : List Char

/-- Result of one iteration of the dialogue loop: continue looping, break
out of the loop (the controller then goes back to sleep, returning the
history), or an uncaught exception (only `KeyboardInterrupt` is caught,
chatAI.py line 94; everything else escapes `start_dialogue`). -/
inductive IterResult
  | next (s : DlgState)
  | sleep (s : DlgState) (why : DlgExit)
  | raised (e : PyErr)

/-- One iteration of the `while True` loop of `ChatAI.start_dialogue`
(chatAI.py lines 52-96). -/
def dialogue_step (s : DlgState) (ev : DlgEvent) : IterResult :=
  if timeout_seconds < ev.check_time - s.last_input_time then
    IterResult.sleep s DlgExit.Timeout
  else
    match ev.listen_result with
    | Except.error PyErr.keyboardInterrupt =>
      IterResult.sleep s DlgExit.Interrupted
    | Except.error e => IterResult.raised e
    | Except.ok text =>
      if text.isEmpty then
        if max_invalid_inputs ≤ s.invalid_input_count + 1 then
          IterResult.sleep
            ⟨s.conversation_history, s.last_input_time,
             s.invalid_input_count + 1⟩ DlgExit.TooManyInvalid
        else
          IterResult.next
            ⟨s.conversation_history, s.last_input_time,
             s.invalid_input_count + 1⟩
      else
        if check_exit_intent text then
          IterResult.sleep ⟨s.conversation_history, ev.valid_time, 0⟩
            DlgExit.ExitIntent
        else
          IterResult.next
            ⟨s.conversation_history ++
               [(user_role, text), (ai_role, process_response ev.clock text)],
             ev.valid_time, 0⟩

/-- Outcome of running the dialogue loop over a finite prefix of its
per-iteration events: still looping, returned normally (back to sleep), or
aborted by an uncaught exception. -/
inductive DlgOutcome
  | running (s : DlgState)
  | finished (s : DlgState) (why : DlgExit)
  | aborted (e : PyErr)

/-- `ChatAI.start_dialogue` (chatAI.py lines 40-102) over a finite prefix of
its per-iteration events, starting from state `s`. -/
def start_dialogue : DlgState → List DlgEvent → DlgOutcome
  | s, [] => DlgOutcome.running s
  | s, ev :: evs =>
    match dialogue_step s ev with
    | IterResult.next s' => start_dialogue s' evs
    | IterResult.sleep s' why => DlgOutcome.finished s' why
    | IterResult.raised e => DlgOutcome.aborted e

/-- Acquisitions and releases of the microphone stream. -/
inductive AudioEvent
  | openStream
  | closeStream
deriving DecidableEq

/-- The stream events of one `_record_speech_segment` call: the
`with sd.RawInputStream(...)` block (chatAI.py lines 143-148) opens the
device stream on entry and closes it when the inner loop breaks; while the
loop is still running the stream is open and not yet closed. -/
def record_stream_trace (input : List (Frame × Bool)) : List AudioEvent :=
  match recRun initRecState input with
  | Sum.inl _ => [AudioEvent.openStream]
  | Sum.inr _ => [AudioEvent.openStream, AudioEvent.closeStream]

/-- The stream events of a dialogue session whose successive listen attempts
observe the given classified frame streams (one `_record_speech_segment`
call per attempt). -/
def session_stream_trace (attempts : List (List (Frame × Bool))) :
    List AudioEvent :=
  (attempts.map record_stream_trace).flatten

/-! ### Helper lemmas about the recording loop -/

lemma recRun_cons (s : RecState) (x : Frame × Bool)
    (xs : List (Frame × Bool)) :
    recRun s (x :: xs) =
      match recStep s x with
      | Sum.inl s' => recRun s' xs
      | Sum.inr r => Sum.inr r := rfl

lemma recStep_silent (rb : List (Frame × Bool)) (v : List Frame)
    (c fc : Nat) (f : Frame) :
    recStep ⟨rb, true, v, c, fc⟩ (f, false) =
      if max_silent_frames < c + 1 then
        Sum.inr (⟨rb, true, v ++ [f], c + 1, fc + 1⟩, EndKind.Silence)
      else if max_frames < fc + 1 then
        Sum.inr (⟨rb, true, v ++ [f], c + 1, fc + 1⟩, EndKind.MaxDuration)
      else Sum.inl ⟨rb, true, v ++ [f], c + 1, fc + 1⟩ := rfl

lemma recStep_speech (rb : List (Frame × Bool)) (v : List Frame)
    (c fc : Nat) (f : Frame) :
    recStep ⟨rb, true, v, c, fc⟩ (f, true) =
      if max_frames < fc + 1 then
        Sum.inr (⟨rb, true, v ++ [f], 0, fc + 1⟩, EndKind.MaxDuration)
      else Sum.inl ⟨rb, true, v ++ [f], 0, fc + 1⟩ := rfl

lemma recStep_idle (rb : List (Frame × Bool)) (v : List Frame)
    (c fc : Nat) (x : Frame × Bool) :
    recStep ⟨rb, false, v, c, fc⟩ x =
      if 9 * num_padding_frames <
          10 * (((ring_append rb x).filter fun p => p.2).length) then
        Sum.inl ⟨[], true, v ++ (ring_append rb x).map Prod.fst, c, fc⟩
      else Sum.inl ⟨ring_append rb x, false, v, c, fc⟩ := rfl

/-- Once triggered, feeding consecutive non-speech frames ends the loop by
the silence break exactly when the silence run reaches
`max_silent_frames + 1 = 27`, provided the duration cap is not hit first. -/
lemma recRun_silence_aux (fs : List Frame) (rb : List (Frame × Bool))
    (v : List Frame) (c fc : Nat)
    (hc : c ≤ max_silent_frames)
    (hlen : max_silent_frames + 1 - c ≤ fs.length)
    (hfc : fc + (max_silent_frames + 1 - c) ≤ max_frames + 1) :
    recRun ⟨rb, true, v, c, fc⟩ (fs.map fun f => (f, false)) =
      Sum.inr (⟨rb, true, v ++ fs.take (max_silent_frames + 1 - c),
                max_silent_frames + 1, fc + (max_silent_frames + 1 - c)⟩,
               EndKind.Silence) := by
  induction fs generalizing v c fc with
  | nil =>
    exfalso
    simp only [List.length_nil] at hlen
    omega
  | cons f fs ih =>
    rw [List.map_cons, recRun_cons, recStep_silent]
    by_cases h1 : max_silent_frames < c + 1
    · rw [if_pos h1]
      have hc' : c = max_silent_frames := by omega
      subst hc'
      have h2 : max_silent_frames + 1 - max_silent_frames = 1 := by omega
      rw [h2]
      simp
    · rw [if_neg h1]
      have h3 : ¬ (max_frames < fc + 1) := by omega
      rw [if_neg h3]
      show recRun ⟨rb, true, v ++ [f], c + 1, fc + 1⟩
            (fs.map fun f => (f, false)) = _
      simp only [List.length_cons] at hlen
      rw [ih (v ++ [f]) (c + 1) (fc + 1) (by omega) (by omega) (by omega)]
      have h4 : max_silent_frames + 1 - (c + 1) = max_silent_frames - c := by
        omega
      have h5 : max_silent_frames + 1 - c = (max_silent_frames - c) + 1 := by
        omega
      have h6 : fc + 1 + (max_silent_frames - c) =
          fc + (max_silent_frames - c + 1) := by omega
      rw [h4, h5, h6, List.take_succ_cons]
      simp

/-- Once triggered, consecutive speech frames keep the loop running (so long
as the duration cap is respected), appending every frame and resetting the
silence run to zero. -/
lemma recRun_speech_aux (fs : List Frame) (rb : List (Frame × Bool))
    (v : List Frame) (c fc : Nat)
    (hfc : fc + fs.length ≤ max_frames) (hne : fs ≠ []) :
    recRun ⟨rb, true, v, c, fc⟩ (fs.map fun f => (f, true)) =
      Sum.inl ⟨rb, true, v ++ fs, 0, fc + fs.length⟩ := by
  induction fs generalizing v c fc with
  | nil => exact absurd rfl hne
  | cons f fs ih =>
    rw [List.map_cons, recRun_cons, recStep_speech]
    simp only [List.length_cons] at hfc ⊢
    have h1 : ¬ (max_frames < fc + 1) := by omega
    rw [if_neg h1]
    by_cases h2 : fs = []
    · subst h2
      show recRun ⟨rb, true, v ++ [f], 0, fc + 1⟩ [] = _
      simp [recRun]
    · show recRun ⟨rb, true, v ++ [f], 0, fc + 1⟩
            (fs.map fun f => (f, true)) = _
      rw [ih (v ++ [f]) 0 (fc + 1) (by omega) h2]
      have h3 : fc + 1 + fs.length = fc + (fs.length + 1) := by omega
      rw [h3]
      simp

/-- One triggered loop iteration on a frame of either classification. -/
lemma recStep_triggered (rb : List (Frame × Bool)) (v : List Frame)
    (c fc : Nat) (f : Frame) (b : Bool) :
    recStep ⟨rb, true, v, c, fc⟩ (f, b) =
      if max_silent_frames < (if b then 0 else c + 1) then
        Sum.inr (⟨rb, true, v ++ [f], (if b then 0 else c + 1), fc + 1⟩,
                 EndKind.Silence)
      else if max_frames < fc + 1 then
        Sum.inr (⟨rb, true, v ++ [f], (if b then 0 else c + 1), fc + 1⟩,
                 EndKind.MaxDuration)
      else Sum.inl ⟨rb, true, v ++ [f], (if b then 0 else c + 1), fc + 1⟩ :=
  rfl

/-- Once triggered with `fc` counted frames, feeding `max_frames + 1 - fc`
further frames of arbitrary classification ends the loop by the duration
cap — post-trigger counter at `max_frames + 1 = 501` — provided the
silence-end condition never fires along the way (the running silence
counter stays at most `max_silent_frames` after every processed frame). -/
lemma recRun_forced_aux (xs : List (Frame × Bool)) (rb : List (Frame × Bool))
    (v : List Frame) (c fc : Nat)
    (hfc : fc ≤ max_frames) (hlen : xs.length = max_frames + 1 - fc)
    (hnosil : ∀ k, k < xs.length →
      silence_run c (xs.take (k + 1)) ≤ max_silent_frames) :
    recRun ⟨rb, true, v, c, fc⟩ xs =
      Sum.inr (⟨rb, true, v ++ xs.map Prod.fst, silence_run c xs,
                max_frames + 1⟩,
               EndKind.MaxDuration) := by
  induction xs generalizing v c fc with
  | nil =>
    exfalso
    simp only [List.length_nil] at hlen
    omega
  | cons x xs ih =>
    obtain ⟨f, b⟩ := x
    rw [recRun_cons, recStep_triggered]
    have hsc : (if b then 0 else c + 1) ≤ max_silent_frames := by
      have h0 := hnosil 0 (by simp)
      simpa [silence_run] using h0
    rw [if_neg (by omega : ¬ max_silent_frames < (if b then 0 else c + 1))]
    simp only [List.length_cons] at hlen
    by_cases h1 : max_frames < fc + 1
    · have h2 : xs = [] := List.length_eq_zero.mp (by omega)
      subst h2
      rw [if_pos h1]
      have h3 : fc + 1 = max_frames + 1 := by omega
      rw [h3]
      simp [silence_run]
    · rw [if_neg h1]
      show recRun ⟨rb, true, v ++ [f], (if b then 0 else c + 1), fc + 1⟩
            xs = _
      have hns : ∀ k, k < xs.length →
          silence_run (if b then 0 else c + 1) (xs.take (k + 1)) ≤
            max_silent_frames := by
        intro k hk
        have h := hnosil (k + 1) (by simp only [List.length_cons]; omega)
        simpa [List.take_succ_cons, silence_run] using h
      rw [ih (v ++ [f]) (if b then 0 else c + 1) (fc + 1) (by omega)
        (by omega) hns]
      simp [silence_run, List.append_assoc]

/-- Every loop iteration only ever appends to the accumulator (continue
case). -/
lemma recStep_inl_mono (s s' : RecState) (x : Frame × Bool)
    (h : recStep s x = Sum.inl s') :
    s.voiced_frames <+: s'.voiced_frames := by
  obtain ⟨rb, tr, v, c, fc⟩ := s
  obtain ⟨fx, bx⟩ := x
  cases tr with
  | true =>
    cases bx with
    | true =>
      rw [recStep_speech] at h
      split at h
      · exact absurd h (by simp)
      · cases h
        exact List.prefix_append v [fx]
    | false =>
      rw [recStep_silent] at h
      split at h
      · exact absurd h (by simp)
      · split at h
        · exact absurd h (by simp)
        · cases h
          exact List.prefix_append v [fx]
  | false =>
    rw [recStep_idle] at h
    split at h
    · cases h
      exact List.prefix_append v _
    · cases h
      exact List.prefix_rfl

/-- Every loop iteration only ever appends to the accumulator (break
case). -/
lemma recStep_inr_mono (s s' : RecState) (x : Frame × Bool) (e : EndKind)
    (h : recStep s x = Sum.inr (s', e)) :
    s.voiced_frames <+: s'.voiced_frames := by
  obtain ⟨rb, tr, v, c, fc⟩ := s
  obtain ⟨fx, bx⟩ := x
  cases tr with
  | true =>
    cases bx with
    | true =>
      rw [recStep_speech] at h
      split at h
      · cases h
        exact List.prefix_append v [fx]
      · exact absurd h (by simp)
    | false =>
      rw [recStep_silent] at h
      split at h
      · cases h
        exact List.prefix_append v [fx]
      · split at h
        · cases h
          exact List.prefix_append v [fx]
        · exact absurd h (by simp)
  | false =>
    rw [recStep_idle] at h
    split at h <;> exact absurd h (by simp)

/-- Whatever the loop accumulates before some point stays a prefix of the
final accumulator when the loop later breaks out. -/
lemma recRun_inr_mono (xs : List (Frame × Bool)) (s s2 : RecState)
    (e : EndKind) (h : recRun s xs = Sum.inr (s2, e)) :
    s.voiced_frames <+: s2.voiced_frames := by
  induction xs generalizing s with
  | nil => exact absurd h (by simp [recRun])
  | cons x xs ih =>
    rw [recRun_cons] at h
    cases hstep : recStep s x with
    | inl s' =>
      have h' : recRun s' xs = Sum.inr (s2, e) := by rw [hstep] at h; exact h
      exact (recStep_inl_mono s s' x hstep).trans (ih s' h')
    | inr r =>
      obtain ⟨s', e'⟩ := r
      have h' : (Sum.inr (s', e') :
          RecState ⊕ (RecState × EndKind)) = Sum.inr (s2, e) := by
        rw [hstep] at h; exact h
      simp only [Sum.inr.injEq, Prod.mk.injEq] at h'
      obtain ⟨rfl, rfl⟩ := h'
      exact recStep_inr_mono _ _ _ _ hstep

lemma ring_append_length_le (rb : List (Frame × Bool)) (x : Frame × Bool)
    (h : rb.length ≤ num_padding_frames) :
    (ring_append rb x).length ≤ num_padding_frames := by
  simp only [ring_append]
  split
  · simp only [List.length_drop]
    omega
  · simp only [List.length_append, List.length_cons, List.length_nil] at *
    omega

lemma ring_append_subset (rb : List (Frame × Bool)) (x : Frame × Bool) :
    ∀ p ∈ ring_append rb x, p ∈ rb ++ [x] := by
  simp only [ring_append]
  intro p hp
  split at hp
  · exact (List.drop_sublist _ _).mem hp
  · exact hp

/-- The trigger condition can only hold on a full ring buffer (it needs
strictly more than nine-tenths of `maxlen`, i.e. ten speech entries). -/
lemma trigger_full (rb' : List (Frame × Bool))
    (hlen : rb'.length ≤ num_padding_frames)
    (htrig : 9 * num_padding_frames <
      10 * ((rb'.filter fun p => p.2).length)) :
    rb'.length = num_padding_frames := by
  have hf : (rb'.filter fun p => p.2).length ≤ rb'.length :=
    List.length_filter_le _ _
  have e10 : num_padding_frames = 10 := rfl
  omega

lemma recInv_init (bs : Nat) : RecInv bs initRecState := by
  constructor
  · intro _
    refine ⟨rfl, rfl, rfl, by simp [initRecState, num_padding_frames], ?_⟩
    intro p hp
    simp [initRecState] at hp
  · intro h
    simp [initRecState] at h

/-- The invariant is preserved whenever the loop continues. -/
lemma recStep_inv_inl (bs : Nat) (s s' : RecState) (x : Frame × Bool)
    (hs : RecInv bs s) (hx : x.1.data.length = bs)
    (h : recStep s x = Sum.inl s') : RecInv bs s' := by
  obtain ⟨rb, tr, v, c, fc⟩ := s
  obtain ⟨fx, bx⟩ := x
  obtain ⟨hunt, htrig⟩ := hs
  cases tr with
  | true =>
    obtain ⟨hlenv, hscfc, hvsz⟩ := htrig rfl
    simp only at hlenv hscfc hvsz
    cases bx with
    | true =>
      rw [recStep_speech] at h
      split at h
      · exact absurd h (by simp)
      · cases h
        refine ⟨fun hc => by simp at hc, fun _ => ⟨?_, ?_, ?_⟩⟩
        · simp only [List.length_append, List.length_cons, List.length_nil]
          omega
        · dsimp only
          omega
        · intro g hg
          rcases List.mem_append.mp hg with hg | hg
          · exact hvsz g hg
          · simp only [List.mem_singleton] at hg
            subst hg
            exact hx
    | false =>
      rw [recStep_silent] at h
      split at h
      · exact absurd h (by simp)
      · split at h
        · exact absurd h (by simp)
        · cases h
          refine ⟨fun hc => by simp at hc, fun _ => ⟨?_, ?_, ?_⟩⟩
          · simp only [List.length_append, List.length_cons, List.length_nil]
            omega
          · dsimp only
            omega
          · intro g hg
            rcases List.mem_append.mp hg with hg | hg
            · exact hvsz g hg
            · simp only [List.mem_singleton] at hg
              subst hg
              exact hx
  | false =>
    obtain ⟨hv, hfc, hsc, hrb, hrbsz⟩ := hunt rfl
    simp only at hv hfc hsc hrb hrbsz
    subst hv hfc hsc
    rw [recStep_idle] at h
    have hsub := ring_append_subset rb (fx, bx)
    have hsz' : ∀ p ∈ ring_append rb (fx, bx), p.1.data.length = bs := by
      intro p hp
      rcases List.mem_append.mp (hsub p hp) with hp' | hp'
      · exact hrbsz p hp'
      · simp only [List.mem_singleton] at hp'
        subst hp'
        exact hx
    split at h
    · rename_i hcond
      cases h
      have hfull : (ring_append rb (fx, bx)).length = num_padding_frames :=
        trigger_full _ (ring_append_length_le rb (fx, bx) hrb) hcond
      refine ⟨fun hc => by simp at hc, fun _ => ⟨?_, le_refl 0, ?_⟩⟩
      · simp only [List.nil_append, List.length_map]
        omega
      · intro g hg
        simp only [List.nil_append, List.mem_map] at hg
        obtain ⟨p, hp, rfl⟩ := hg
        exact hsz' p hp
    · cases h
      refine ⟨fun _ => ⟨rfl, rfl, rfl, ?_, hsz'⟩, fun hc => by simp at hc⟩
      exact ring_append_length_le rb (fx, bx) hrb

/-- When the loop breaks out, the accumulator holds the ten preroll frames
plus at least `max_silent_frames + 1 = 27` post-trigger frames, all of the
input byte size. -/
lemma recStep_inv_inr (bs : Nat) (s s' : RecState) (x : Frame × Bool)
    (e : EndKind) (hs : RecInv bs s) (hx : x.1.data.length = bs)
    (h : recStep s x = Sum.inr (s', e)) :
    s'.triggered = true ∧
    num_padding_frames + (max_silent_frames + 1) ≤ s'.voiced_frames.length ∧
    ∀ f ∈ s'.voiced_frames, f.data.length = bs := by
  obtain ⟨rb, tr, v, c, fc⟩ := s
  obtain ⟨fx, bx⟩ := x
  obtain ⟨hunt, htrig⟩ := hs
  have e26 : max_silent_frames = 26 := rfl
  have e500 : max_frames = 500 := rfl
  have e10 : num_padding_frames = 10 := rfl
  cases tr with
  | true =>
    obtain ⟨hlenv, hscfc, hvsz⟩ := htrig rfl
    simp only at hlenv hscfc hvsz
    have hsz : ∀ g ∈ v ++ [fx], g.data.length = bs := by
      intro g hg
      rcases List.mem_append.mp hg with hg | hg
      · exact hvsz g hg
      · simp only [List.mem_singleton] at hg
        subst hg
        exact hx
    cases bx with
    | true =>
      rw [recStep_speech] at h
      split at h
      · rename_i hcond
        cases h
        refine ⟨rfl, ?_, hsz⟩
        simp only [List.length_append, List.length_cons, List.length_nil]
        omega
      · exact absurd h (by simp)
    | false =>
      rw [recStep_silent] at h
      split at h
      · rename_i hcond
        cases h
        refine ⟨rfl, ?_, hsz⟩
        simp only [List.length_append, List.length_cons, List.length_nil]
        omega
      · split at h
        · rename_i hcond
          cases h
          refine ⟨rfl, ?_, hsz⟩
          simp only [List.length_append, List.length_cons, List.length_nil]
          omega
        · exact absurd h (by simp)
  | false =>
    rw [recStep_idle] at h
    split at h <;> exact absurd h (by simp)

/-- Whenever the recording loop breaks out of a run that started in a state
satisfying the invariant, the final accumulator is at least 37 frames of
the input byte size and the trigger has fired. -/
lemma recRun_inr_inv (bs : Nat) (xs : List (Frame × Bool))
    (s s2 : RecState) (e : EndKind)
    (hs : RecInv bs s) (hxs : ∀ p ∈ xs, p.1.data.length = bs)
    (h : recRun s xs = Sum.inr (s2, e)) :
    s2.triggered = true ∧
    num_padding_frames + (max_silent_frames + 1) ≤ s2.voiced_frames.length ∧
    ∀ f ∈ s2.voiced_frames, f.data.length = bs := by
  induction xs generalizing s with
  | nil => exact absurd h (by simp [recRun])
  | cons x xs ih =>
    rw [recRun_cons] at h
    cases hstep : recStep s x with
    | inl s' =>
      have h' : recRun s' xs = Sum.inr (s2, e) := by rw [hstep] at h; exact h
      exact ih s'
        (recStep_inv_inl bs s s' x hs (hxs x (by simp)) hstep)
        (fun p hp => hxs p (by simp [hp])) h'
    | inr r =>
      obtain ⟨s', e'⟩ := r
      have h' : (Sum.inr (s', e') :
          RecState ⊕ (RecState × EndKind)) = Sum.inr (s2, e) := by
        rw [hstep] at h; exact h
      simp only [Sum.inr.injEq, Prod.mk.injEq] at h'
      obtain ⟨rfl, rfl⟩ := h'
      exact recStep_inv_inr bs s _ x _ hs (hxs x (by simp)) hstep

/-- Concatenating equally-sized frames yields `size × count` bytes. -/
lemma flatten_sized_length (bs : Nat) (l : List Frame)
    (h : ∀ f ∈ l, f.data.length = bs) :
    ((l.map Frame.data).flatten).length = bs * l.length := by
  induction l with
  | nil => simp
  | cons f l ih =>
    simp only [List.map_cons, List.flatten_cons, List.length_append,
      List.length_cons]
    rw [h f (by simp), ih (fun g hg => h g (by simp [hg]))]
    ring

/-! ### Claim theorems -/

set_option maxRecDepth 200000

/-- Claim C1, counterexample: a ring buffer at full capacity
(`num_padding_frames = 10`) holding nine speech frames — i.e. at least
`trigger_ratio × capacity = 9` of them — does NOT trigger the gate: after
the tenth push the loop is still untriggered, with an empty accumulator.
The code requires strictly more than `0.9 × maxlen`, so nine of ten
speech frames fail the test. -/
theorem C1_counterexample :
    recRun initRecState ((f0, false) :: List.replicate 9 (f0, true)) =
      Sum.inl ⟨(f0, false) :: List.replicate 9 (f0, true), false, [], 0, 0⟩ ∧
    ((((f0, false) :: List.replicate 9 (f0, true)).filter
        fun p => p.2).length) = 9 ∧
    ((f0, false) :: List.replicate 9 (f0, true)).length =
      num_padding_frames :=
  ⟨rfl, rfl, rfl⟩

/-- Claim C1 (amended): when a push makes the ring buffer pass the strict
trigger test (more than `0.9 × capacity` speech frames, i.e. all ten), the
gate transitions to the triggered state, the ring buffer is cleared at that
moment, the accumulator becomes exactly the pre-trigger ring-buffer content
in original order, and that content is a prefix of the accumulator of any
later finalized utterance. -/
theorem C1_trigger_preroll (s s' s2 : RecState) (x : Frame × Bool)
    (rest : List (Frame × Bool)) (e : EndKind)
    (hT : s.triggered = false) (hV : s.voiced_frames = [])
    (htrig : 9 * num_padding_frames <
      10 * (((ring_append s.ring_buffer x).filter fun p => p.2).length))
    (hstep : recStep s x = Sum.inl s')
    (hrest : recRun s' rest = Sum.inr (s2, e)) :
    s'.triggered = true ∧ s'.ring_buffer = [] ∧
    s'.voiced_frames = (ring_append s.ring_buffer x).map Prod.fst ∧
    (ring_append s.ring_buffer x).map Prod.fst <+: s2.voiced_frames := by
  obtain ⟨rb, tr, v, c, fc⟩ := s
  simp only at hT hV htrig hstep ⊢
  subst hT
  subst hV
  rw [recStep_idle, if_pos htrig] at hstep
  have hs' : s' = ⟨[], true, [] ++ (ring_append rb x).map Prod.fst, c, fc⟩ := by
    injection hstep with h
    exact h.symm
  subst hs'
  refine ⟨rfl, rfl, by simp, ?_⟩
  have hmono := recRun_inr_mono rest _ s2 e hrest
  simpa using hmono

/-- Concrete instance for C1: pushing a tenth speech frame onto a buffer of
nine speech frames triggers, clears the buffer, and the ten preroll frames
head every later utterance. -/
theorem C1_witness :
    (⟨[], true, List.replicate 10 f0, 0, 0⟩ : RecState).triggered = true ∧
    (⟨[], true, List.replicate 10 f0, 0, 0⟩ : RecState).ring_buffer = [] ∧
    (⟨[], true, List.replicate 10 f0, 0, 0⟩ : RecState).voiced_frames =
      (ring_append (List.replicate 9 (f0, true)) (f0, true)).map Prod.fst ∧
    (ring_append (List.replicate 9 (f0, true)) (f0, true)).map Prod.fst <+:
      (⟨[], true, List.replicate 37 f0, 27, 27⟩ : RecState).voiced_frames :=
  C1_trigger_preroll ⟨List.replicate 9 (f0, true), false, [], 0, 0⟩
    ⟨[], true, List.replicate 10 f0, 0, 0⟩
    ⟨[], true, List.replicate 37 f0, 27, 27⟩ (f0, true)
    (List.replicate 27 (f0, false)) EndKind.Silence
    rfl rfl (by decide) rfl rfl

/-- Claim C2: once triggered (silence run zero), a stream of consecutive
non-speech frames ends the segmentation by the silence path after exactly
`max_silent_frames + 1 = int(800/30) + 1 = 27 = ceil(800/30)` frames past
trigger (provided the duration cap has headroom), consuming exactly those
27 frames and appending them to the utterance. -/
theorem C2_silence_release (s : RecState) (fs : List Frame)
    (hT : s.triggered = true) (hS : s.silent_frame_count = 0)
    (hF : s.frame_count + (max_silent_frames + 1) ≤ max_frames)
    (hlen : max_silent_frames + 1 ≤ fs.length) :
    recRun s (fs.map fun f => (f, false)) =
      Sum.inr (⟨s.ring_buffer, true,
        s.voiced_frames ++ fs.take (max_silent_frames + 1),
        max_silent_frames + 1, s.frame_count + (max_silent_frames + 1)⟩,
        EndKind.Silence) := by
  obtain ⟨rb, tr, v, c, fc⟩ := s
  simp only at hT hS hF hlen ⊢
  subst hT
  subst hS
  have h := recRun_silence_aux fs rb v 0 fc (by omega)
    (by simpa using hlen) (by omega)
  simpa using h

/-- Concrete instance for C2 (the spec scenario): from trigger, 10 speech
frames have been recorded, then 30 non-speech frames arrive; the utterance
ends by the silence path at frame 37 relative to trigger (forced end not
taken). -/
theorem C2_witness :
    recRun ⟨[], true, List.replicate 10 f0, 0, 10⟩
        ((List.replicate 30 f0).map fun f => (f, false)) =
      Sum.inr (⟨[], true,
        List.replicate 10 f0 ++
          (List.replicate 30 f0).take (max_silent_frames + 1),
        max_silent_frames + 1, 10 + (max_silent_frames + 1)⟩,
        EndKind.Silence) :=
  C2_silence_release ⟨[], true, List.replicate 10 f0, 0, 10⟩
    (List.replicate 30 f0) rfl rfl (by decide) (by decide)

/-- Claim C3, counterexample: a capture whose total accumulated frame count
is 511 > 500 = `max_utterance_ms / frame_duration_ms` nevertheless ends by
the silence path, not the forced path: from a cold start, 484 speech frames
(10 of which trigger the gate) followed by 27 non-speech frames end the
loop with `EndKind.Silence` at 511 captured frames, because the silence
test is checked first and the post-trigger counter excludes the 10 preroll
frames. -/
theorem C3_counterexample :
    recRun initRecState
        (List.replicate 484 (f0, true) ++ List.replicate 27 (f0, false)) =
      Sum.inr (⟨[], true, List.replicate 511 f0, 27, 501⟩,
               EndKind.Silence) ∧
    max_frames < (List.replicate 511 f0).length :=
  ⟨rfl, by decide⟩

/-- Claim C3 (amended): for every capture, of any mix of VAD
classifications, in which the silence-end condition does not fire within
the first 501 post-trigger frames (the running silence counter stays at
most `max_silent_frames = 26` after each of them), segmentation force-ends
by the duration-cap path as soon as the post-trigger frame counter exceeds
`max_frames = 500`, i.e. at post-trigger frame 501, and the forced path
(`EndKind.MaxDuration`) is distinguishable from the silence path
(`EndKind.Silence`). -/
theorem C3_forced_end (s : RecState) (xs : List (Frame × Bool))
    (hT : s.triggered = true) (hfc : s.frame_count ≤ max_frames)
    (hlen : xs.length = max_frames + 1 - s.frame_count)
    (hnosil : ∀ k, k < xs.length →
      silence_run s.silent_frame_count (xs.take (k + 1)) ≤
        max_silent_frames) :
    recRun s xs =
      Sum.inr (⟨s.ring_buffer, true, s.voiced_frames ++ xs.map Prod.fst,
                silence_run s.silent_frame_count xs, max_frames + 1⟩,
               EndKind.MaxDuration) := by
  obtain ⟨rb, tr, v, c, fc⟩ := s
  simp only at hT hfc hlen hnosil ⊢
  subst hT
  exact recRun_forced_aux xs rb v c fc hfc hlen hnosil

/-- Concrete instance for C3 (amended): from a fresh trigger with the ten
preroll frames accumulated, 501 frames of alternating speech/non-speech
classification (so the silence-end condition never fires) force-end the
capture by the duration cap at post-trigger frame 501. -/
theorem C3_witness :
    recRun ⟨[], true, List.replicate 10 f0, 0, 0⟩
        ((List.replicate 250 [(f0, true), (f0, false)]).flatten ++
          [(f0, true)]) =
      Sum.inr (⟨[], true,
        List.replicate 10 f0 ++
          (((List.replicate 250 [(f0, true), (f0, false)]).flatten ++
            [(f0, true)]).map Prod.fst),
        silence_run 0
          ((List.replicate 250 [(f0, true), (f0, false)]).flatten ++
            [(f0, true)]),
        max_frames + 1⟩,
       EndKind.MaxDuration) :=
  C3_forced_end ⟨[], true, List.replicate 10 f0, 0, 0⟩
    ((List.replicate 250 [(f0, true), (f0, false)]).flatten ++ [(f0, true)])
    rfl (by decide) (by decide) (by decide)

/-- Claim C4: a capture with fewer than `min_frames_to_keep = 10`
accumulated frames finalizes to the empty byte string; the listen step maps
that empty audio to the empty transcription without invoking the ASR
engine; and the ASR engine is only ever invoked on non-empty captured
audio. -/
theorem C4_short_capture_discarded (frames : List Frame) (audio : List Nat)
    (persist_fail : Option Nat)
    (hshort : frames.length < min_frames_to_keep)
    (hinv : (transcribe_step persist_fail audio).2 = true) :
    finalize_segment frames = [] ∧
    transcribe_step persist_fail (finalize_segment frames) =
      (Except.ok [], false) ∧
    audio ≠ [] := by
  have h1 : finalize_segment frames = [] := by
    unfold finalize_segment
    rw [if_pos hshort]
  refine ⟨h1, ?_, ?_⟩
  · rw [h1]
    rfl
  · intro ha
    subst ha
    simp [transcribe_step] at hinv

/-- Concrete instance for C4: a one-frame capture is discarded (empty
result, no ASR call), while a non-empty byte string does reach the ASR
engine. -/
theorem C4_witness :
    ([f1].length < min_frames_to_keep ∧
     (transcribe_step none [0]).2 = true) ∧
    (finalize_segment [f1] = [] ∧
     transcribe_step none (finalize_segment [f1]) = (Except.ok [], false) ∧
     [0] ≠ ([] : List Nat)) :=
  ⟨⟨by decide, by decide⟩,
   C4_short_capture_discarded [f1] [0] none (by decide) (by decide)⟩

/-- Claim C5 (bug evidence): on perpetual non-speech input the recording
loop never returns — after 1000 consecutive non-speech frames (30 s of
audio, beyond the 20 s idle timeout) the loop is still running with an
untriggered state, so `start_dialogue` never reaches its timeout check and
never transitions to sleep. -/
theorem C5_perpetual_silence_no_return :
    recRun initRecState (List.replicate 1000 (f0, false)) =
      Sum.inl ⟨List.replicate 10 (f0, false), false, [], 0, 0⟩ ∧
    record_speech_segment (List.replicate 1000 (f0, false)) = none ∧
    timeout_seconds < 1000 * frame_duration_ms / 1000 :=
  ⟨rfl, rfl, by decide⟩

/-- Claim C6: starting from a zero invalid-input counter, three consecutive
empty transcriptions (each arriving before the idle timeout) drive the
dialogue loop to sleep exactly on the third one; and a valid (non-empty,
non-exit) transcription arriving after two invalid ones resets the counter
to zero. -/
theorem C6_three_invalid_sleeps (s : DlgState) (e1 e2 e3 ev : DlgEvent)
    (tx : List Char)
    (h0 : s.invalid_input_count = 0)
    (he1 : e1.listen_result = Except.ok [])
    (ht1 : e1.check_time - s.last_input_time ≤ timeout_seconds)
    (he2 : e2.listen_result = Except.ok [])
    (ht2 : e2.check_time - s.last_input_time ≤ timeout_seconds)
    (he3 : e3.listen_result = Except.ok [])
    (ht3 : e3.check_time - s.last_input_time ≤ timeout_seconds)
    (hev : ev.listen_result = Except.ok tx) (htx : tx ≠ [])
    (hnoexit : check_exit_intent tx = false)
    (htev : ev.check_time - s.last_input_time ≤ timeout_seconds) :
    dialogue_step s e1 =
      IterResult.next ⟨s.conversation_history, s.last_input_time, 1⟩ ∧
    dialogue_step ⟨s.conversation_history, s.last_input_time, 1⟩ e2 =
      IterResult.next ⟨s.conversation_history, s.last_input_time, 2⟩ ∧
    dialogue_step ⟨s.conversation_history, s.last_input_time, 2⟩ e3 =
      IterResult.sleep ⟨s.conversation_history, s.last_input_time, 3⟩
        DlgExit.TooManyInvalid ∧
    dialogue_step ⟨s.conversation_history, s.last_input_time, 2⟩ ev =
      IterResult.next
        ⟨s.conversation_history ++
           [(user_role, tx), (ai_role, process_response ev.clock tx)],
         ev.valid_time, 0⟩ := by
  have hisempty : tx.isEmpty = false := by
    cases tx with
    | nil => exact absurd rfl htx
    | cons a l => rfl
  refine ⟨?_, ?_, ?_, ?_⟩
  · unfold dialogue_step
    rw [if_neg (by omega : ¬ timeout_seconds < e1.check_time -
      s.last_input_time), he1]
    simp [h0, max_invalid_inputs]
  · unfold dialogue_step
    rw [if_neg (by omega : ¬ timeout_seconds < e2.check_time -
      s.last_input_time), he2]
    simp [max_invalid_inputs]
  · unfold dialogue_step
    rw [if_neg (by omega : ¬ timeout_seconds < e3.check_time -
      s.last_input_time), he3]
    simp [max_invalid_inputs]
  · unfold dialogue_step
    rw [if_neg (by omega : ¬ timeout_seconds < ev.check_time -
      s.last_input_time), hev]
    simp [hisempty, hnoexit]

/-- Concrete instance for C6: three empty transcriptions from a fresh
listening state put the controller to sleep on the third; a valid greeting
after two failures resets the counter. -/
theorem C6_witness :
    dialogue_step ⟨[], 100, 0⟩ ⟨110, 111, Except.ok [], []⟩ =
      IterResult.next ⟨[], 100, 1⟩ ∧
    dialogue_step ⟨[], 100, 1⟩ ⟨112, 113, Except.ok [], []⟩ =
      IterResult.next ⟨[], 100, 2⟩ ∧
    dialogue_step ⟨[], 100, 2⟩ ⟨114, 115, Except.ok [], []⟩ =
      IterResult.sleep ⟨[], 100, 3⟩ DlgExit.TooManyInvalid ∧
    dialogue_step ⟨[], 100, 2⟩
        ⟨116, 117, Except.ok (String.toList "你好"), []⟩ =
      IterResult.next
        ⟨[] ++ [(user_role, String.toList "你好"),
                (ai_role, process_response [] (String.toList "你好"))],
         117, 0⟩ :=
  C6_three_invalid_sleeps ⟨[], 100, 0⟩
    ⟨110, 111, Except.ok [], []⟩ ⟨112, 113, Except.ok [], []⟩
    ⟨114, 115, Except.ok [], []⟩
    ⟨116, 117, Except.ok (String.toList "你好"), []⟩
    (String.toList "你好") rfl rfl (by decide) rfl (by decide) rfl
    (by decide) rfl (by decide) (by decide) (by decide)

/-- Claim C7: the exit-intent check agrees everywhere with the spec's
description — some configured exit phrase occurs as a case-insensitive
substring of the transcription (both sides lowercased) — in particular it
accepts "谢谢，再见"; and on an exit-intent transcription the dialogue loop
goes to sleep without generating a response (the history is left
unchanged, no assistant turn is appended). -/
theorem C7_exit_intent (u tx : List Char) (s : DlgState) (ev : DlgEvent)
    (hev : ev.listen_result = Except.ok tx) (hne : tx ≠ [])
    (hexit : check_exit_intent tx = true)
    (ht : ev.check_time - s.last_input_time ≤ timeout_seconds) :
    check_exit_intent u = exit_intent_spec u ∧
    check_exit_intent (String.toList "谢谢，再见") = true ∧
    dialogue_step s ev =
      IterResult.sleep ⟨s.conversation_history, ev.valid_time, 0⟩
        DlgExit.ExitIntent := by
  have hisempty : tx.isEmpty = false := by
    cases tx with
    | nil => exact absurd rfl hne
    | cons a l => rfl
  refine ⟨rfl, by decide, ?_⟩
  unfold dialogue_step
  rw [if_neg (by omega : ¬ timeout_seconds < ev.check_time -
    s.last_input_time), hev]
  simp [hisempty, hexit]

/-- Concrete instance for C7: the transcription "谢谢，再见" triggers the
exit intent and puts the dialogue to sleep with no response generated. -/
theorem C7_witness :
    check_exit_intent (String.toList "QUIT now") =
      exit_intent_spec (String.toList "QUIT now") ∧
    check_exit_intent (String.toList "谢谢，再见") = true ∧
    dialogue_step ⟨[], 0, 0⟩
        ⟨5, 6, Except.ok (String.toList "谢谢，再见"), []⟩ =
      IterResult.sleep ⟨[], 6, 0⟩ DlgExit.ExitIntent :=
  C7_exit_intent (String.toList "QUIT now") (String.toList "谢谢，再见")
    ⟨[], 0, 0⟩ ⟨5, 6, Except.ok (String.toList "谢谢，再见"), []⟩
    rfl (by decide) (by decide) (by decide)

/-- Claim C8 (bug evidence): a persistence failure in the debug-WAV write
is NOT absorbed: on a captured utterance, `_asr_engine` propagates the
I/O error out of `_listen_and_transcribe`, and the dialogue loop — which
catches only `KeyboardInterrupt` — aborts with that error instead of
continuing to listen. -/
theorem C8_persist_failure_aborts :
    listen_and_transcribe (some 7)
        (List.replicate 10 (f1, true) ++ List.replicate 27 (f1, false)) =
      some (Except.error (PyErr.ioError 7), true) ∧
    start_dialogue ⟨[], 0, 0⟩
        [⟨5, 6, Except.error (PyErr.ioError 7), []⟩] =
      DlgOutcome.aborted (PyErr.ioError 7) ∧
    start_dialogue ⟨[], 0, 0⟩
        [⟨5, 6, Except.error PyErr.keyboardInterrupt, []⟩] =
      DlgOutcome.finished ⟨[], 0, 0⟩ DlgExit.Interrupted :=
  ⟨rfl, rfl, rfl⟩

/-- Claim C9, counterexample: a session of two listen attempts, each
capturing a (non-empty) utterance, opens and closes the microphone stream
twice — once per utterance, not once per session. -/
theorem C9_counterexample :
    (session_stream_trace
        [List.replicate 10 (f1, true) ++ List.replicate 27 (f1, false),
         List.replicate 10 (f1, true) ++ List.replicate 27 (f1, false)]).count
      AudioEvent.openStream = 2 ∧
    (session_stream_trace
        [List.replicate 10 (f1, true) ++ List.replicate 27 (f1, false),
         List.replicate 10 (f1, true) ++ List.replicate 27 (f1, false)]).count
      AudioEvent.closeStream = 2 ∧
    record_speech_segment
        (List.replicate 10 (f1, true) ++ List.replicate 27 (f1, false)) =
      some (List.replicate 37 0, EndKind.Silence) ∧
    List.replicate 37 (0 : Nat) ≠ [] :=
  ⟨rfl, rfl, rfl, by decide⟩

/-- Claim C9 (amended): the audio stream is acquired and released exactly
once per `_record_speech_segment` call (per listen attempt), not once per
dialogue session: a session whose listen attempts all complete performs
exactly one open and one close per attempt. -/
theorem C9_stream_per_attempt (attempts : List (List (Frame × Bool)))
    (hdone : ∀ a ∈ attempts, (recRun initRecState a).isRight = true) :
    (session_stream_trace attempts).count AudioEvent.openStream =
      attempts.length ∧
    (session_stream_trace attempts).count AudioEvent.closeStream =
      attempts.length := by
  induction attempts with
  | nil => simp [session_stream_trace]
  | cons a as ih =>
    have ha := hdone a (by simp)
    obtain ⟨ih1, ih2⟩ := ih (fun b hb => hdone b (by simp [hb]))
    have htr : record_stream_trace a =
        [AudioEvent.openStream, AudioEvent.closeStream] := by
      unfold record_stream_trace
      cases h : recRun initRecState a with
      | inl s' =>
        rw [h] at ha
        simp [Sum.isRight] at ha
      | inr r => rfl
    have hsess : session_stream_trace (a :: as) =
        record_stream_trace a ++ session_stream_trace as := by
      simp [session_stream_trace]
    rw [hsess, htr]
    simp only [List.count_append, List.length_cons]
    have hopen : List.count AudioEvent.openStream
        [AudioEvent.openStream, AudioEvent.closeStream] = 1 := by decide
    have hclose : List.count AudioEvent.closeStream
        [AudioEvent.openStream, AudioEvent.closeStream] = 1 := by decide
    constructor
    · rw [hopen, ih1]
      omega
    · rw [hclose, ih2]
      omega

/-- Concrete instance for C9 (amended): a session of two completed listen
attempts opens and closes the stream twice. -/
theorem C9_witness :
    (session_stream_trace
        [List.replicate 10 (f0, true) ++ List.replicate 27 (f0, false),
         List.replicate 10 (f0, true) ++ List.replicate 27 (f0, false)]).count
      AudioEvent.openStream =
      ([List.replicate 10 (f0, true) ++ List.replicate 27 (f0, false),
        List.replicate 10 (f0, true) ++
          List.replicate 27 (f0, false)] :
        List (List (Frame × Bool))).length ∧
    (session_stream_trace
        [List.replicate 10 (f0, true) ++ List.replicate 27 (f0, false),
         List.replicate 10 (f0, true) ++ List.replicate 27 (f0, false)]).count
      AudioEvent.closeStream =
      ([List.replicate 10 (f0, true) ++ List.replicate 27 (f0, false),
        List.replicate 10 (f0, true) ++
          List.replicate 27 (f0, false)] :
        List (List (Frame × Bool))).length :=
  C9_stream_per_attempt
    [List.replicate 10 (f0, true) ++ List.replicate 27 (f0, false),
     List.replicate 10 (f0, true) ++ List.replicate 27 (f0, false)]
    (by decide)

/-- Claim C10: whenever the capture loop returns, the trigger has fired and
the utterance holds at least `num_padding_frames + (max_silent_frames + 1)
= 10 + 27 = 37` frames; with full-size 960-byte frames that is at least
35520 bytes, so the `< min_frames_to_keep` discard branch is unreachable
and `_record_speech_segment` never returns the empty byte string. -/
theorem C10_capture_bounds (input : List (Frame × Bool)) (s : RecState)
    (e : EndKind)
    (hrun : recRun initRecState input = Sum.inr (s, e))
    (hsized : ∀ p ∈ input, p.1.data.length = bytes_per_frame) :
    s.triggered = true ∧
    37 ≤ s.voiced_frames.length ∧
    record_speech_segment input =
      some ((s.voiced_frames.map Frame.data).flatten, e) ∧
    35520 ≤ ((s.voiced_frames.map Frame.data).flatten).length ∧
    (s.voiced_frames.map Frame.data).flatten ≠ [] := by
  obtain ⟨ht, hlen, hsz⟩ :=
    recRun_inr_inv bytes_per_frame input initRecState s e
      (recInv_init _) hsized hrun
  have e37 : num_padding_frames + (max_silent_frames + 1) = 37 := rfl
  have hlen' : 37 ≤ s.voiced_frames.length := by omega
  have e10 : min_frames_to_keep = 10 := rfl
  have hfin : finalize_segment s.voiced_frames =
      (s.voiced_frames.map Frame.data).flatten := by
    unfold finalize_segment
    rw [if_neg (by omega : ¬ s.voiced_frames.length < min_frames_to_keep)]
  have hbytes := flatten_sized_length bytes_per_frame s.voiced_frames hsz
  have e960 : bytes_per_frame = 960 := rfl
  rw [e960] at hbytes
  refine ⟨ht, hlen', ?_, ?_, ?_⟩
  · unfold record_speech_segment
    rw [hrun]
    show some (finalize_segment s.voiced_frames, e) = _
    rw [hfin]
  · omega
  · have hpos : 0 < ((s.voiced_frames.map Frame.data).flatten).length := by
      omega
    exact List.length_pos.mp hpos

/-- Concrete instance for C10: a minimal capture (ten speech frames to
trigger, then 27 non-speech frames) of full-size frames returns exactly 37
frames and 35520 bytes. -/
theorem C10_witness :
    (⟨[], true, List.replicate 37 f960, 27, 27⟩ : RecState).triggered =
      true ∧
    37 ≤ (⟨[], true, List.replicate 37 f960, 27, 27⟩ :
      RecState).voiced_frames.length ∧
    record_speech_segment
        (List.replicate 10 (f960, true) ++
          List.replicate 27 (f960, false)) =
      some ((((⟨[], true, List.replicate 37 f960, 27, 27⟩ :
        RecState).voiced_frames).map Frame.data).flatten, EndKind.Silence) ∧
    35520 ≤ (((⟨[], true, List.replicate 37 f960, 27, 27⟩ :
      RecState).voiced_frames.map Frame.data).flatten).length ∧
    ((⟨[], true, List.replicate 37 f960, 27, 27⟩ :
      RecState).voiced_frames.map Frame.data).flatten ≠ [] :=
  C10_capture_bounds
    (List.replicate 10 (f960, true) ++ List.replicate 27 (f960, false))
    ⟨[], true, List.replicate 37 f960, 27, 27⟩ EndKind.Silence rfl
    (by
      intro p hp
      rcases List.mem_append.mp hp with h | h <;>
        rw [(List.mem_replicate.mp h).2] <;> rfl)

end Jarvis
